import Mathlib

set_option maxRecDepth 100000

/-!
Shallow embedding of `src/src/lib.rs`, a streaming read-only TAR archive
reader.

Bytes are modelled as `Nat` (values 0..255).  The underlying seekable byte
source (`R : Seek + Reader`, a `BufReader` in the repository's tests) is
modelled as a `List Nat` together with an explicit cursor position; its
`read` fills a caller-sized buffer from the cursor and fails with
end-of-file when the cursor is at or past the end, and its `seek` to an
absolute non-negative offset always succeeds.  Machine integers (`u64`,
`uint`) are modelled as `Nat`; 64-bit behaviour is observable only in the
padding computation `(size + 511) & !(512 - 1)` (see `padSize`) and in the
`i64` arithmetic of `Seek for File` (see `wrap64`), which are modelled
bit-exactly.  Fallible operations return `Except IoKind`.
-/

/-- Error kinds distinguished by the library: `endOfFile` models
`io::EndOfFile` (the standard end-of-stream condition), `badArchive` the
`bad_archive()` value (an `OtherIoError` carrying the description
"invalid tar archive"), and `otherErr` the anonymous
`io::standard_error(io::OtherIoError)` returned by out-of-range seeks. -/
inductive IoKind where
  | endOfFile
  | badArchive
  | otherErr
deriving DecidableEq, Repr

/-- Rust: `pub struct Archive<R> { obj: RefCell<R>, pos: Cell<u64> }`.
The byte source `obj` is passed separately as a `List Nat` wherever it is
needed; only the tracked cursor position `pos` is mutable state. -/
structure Archive where
  pos : Nat
deriving DecidableEq, Repr

/-- Rust: `pub struct Files<'a, R> { archive, done: bool, offset: u64 }`
(the borrowed archive's cursor is threaded separately). -/
structure FilesState where
  done : Bool
  offset : Nat
deriving DecidableEq, Repr

/-- Rust `struct Header`: the fixed-width byte fields of a 512-byte tar
header block, per the `#[repr(C)]` layout. -/
structure Header where
  name : List Nat
  mode : List Nat
  owner : List Nat
  group : List Nat
  size : List Nat
  mtime : List Nat
  cksum : List Nat
  link : List Nat
  linkname : List Nat
  rest : List Nat
deriving DecidableEq, Repr

/-- Rust: `pub struct File<'a, R> { header, archive, tar_offset: u64,
pos: u64, size: u64 }` (the borrowed archive is passed separately). -/
structure File where
  header : Header
  tar_offset : Nat
  pos : Nat
  size : Nat
deriving DecidableEq, Repr

/-- Rust `fn truncate`: the slice up to (excluding) the first NUL byte,
or the whole slice if it contains no NUL. -/
def truncate (s : List Nat) : List Nat := s.takeWhile (fun i => i != 0)

/-- Models `str::from_utf8` followed by `std::num::from_str_radix(_, 8)`
on a byte string (2014 stdlib): it succeeds exactly on a nonempty string
of octal digit characters `'0'..'7'` (bytes 48..55), returning its value.
Any other byte — whitespace, sign, NUL, non-ASCII — makes the parse (or
the UTF-8 decode, for bytes ≥ 128) fail, and both failures are reported
identically by the callers.  Overflow is unreachable: the fields parsed
are at most 12 bytes, so values are below `8^12 < 2^64`. -/
def parseOctal (s : List Nat) : Option Nat :=
  if s.isEmpty then none
  else if s.all (fun b => 48 ≤ b && b ≤ 55) then
    some (s.foldl (fun a b => a * 8 + (b - 48)) 0)
  else none

/-- An ASCII whitespace byte, as recognised by `str::trim`. -/
def isSpaceByte (b : Nat) : Bool := b == 32 || (9 ≤ b && b ≤ 13)

/-- Models `str::trim` on the ASCII byte strings occurring in checksum
fields: strips leading and trailing whitespace bytes. -/
def trimBytes (s : List Nat) : List Nat :=
  ((s.dropWhile isSpaceByte).reverse.dropWhile isSpaceByte).reverse

/-- Rust: `let hd: Header = unsafe { mem::transmute(chunk) }` — the
512-byte chunk reinterpreted as the `#[repr(C)]` `Header`, i.e. fixed
field-offset slicing (100+8+8+8+12+12+8+1+100+255 = 512). -/
def mkHeader (c : List Nat) : Header where
  name := c.take 100
  mode := (c.drop 100).take 8
  owner := (c.drop 108).take 8
  group := (c.drop 116).take 8
  size := (c.drop 124).take 12
  mtime := (c.drop 136).take 12
  cksum := (c.drop 148).take 8
  link := (c.drop 156).take 1
  linkname := (c.drop 157).take 100
  rest := c.drop 257

/-- Rust `File::cksum`: NUL-truncate the checksum field, decode as UTF-8,
trim surrounding whitespace, parse as octal; failures are
`bad_archive()`. -/
def File.cksum (f : File) : Except IoKind Nat :=
  match parseOctal (trimBytes (truncate f.header.cksum)) with
  | some n => .ok n
  | none => .error .badArchive

/-- Rust `File::calc_size`: NUL-truncate the size field, decode as UTF-8,
parse as octal (note: no `trim`, unlike `File::cksum`); failures are
`bad_archive()`. -/
def File.calc_size (f : File) : Except IoKind Nat :=
  match parseOctal (truncate f.header.size) with
  | some n => .ok n
  | none => .error .badArchive

/-- Rust (`Files::next`, lines 131-133): the computed checksum
`chunk.slice_to(148).sum + chunk.slice_from(156).sum + 32 * 8`, summing
each byte as an unsigned value. -/
def headerSum (c : List Nat) : Nat :=
  (c.take 148).sum + (c.drop 156).sum + 32 * 8

/-- Rust (`Files::next`, line 151): `(size + 511) & !(512 - 1)` on `u64`,
i.e. bitwise AND with the 64-bit complement of 511. -/
def padSize (n : Nat) : Nat := Nat.land (n + 511) (2 ^ 64 - 512)

/-- Rust (`Files::next`, line 123): the scanned chunk is a zero block
when `chunk.iter().any(|i| *i != 0)` is false. -/
def isZeroBlock (c : List Nat) : Bool := !(c.any (fun i => i != 0))

/-- Rust `impl Reader for &Archive` over a `BufReader` source: one `read`
call into a buffer of length `amt` returns end-of-file if the cursor is at
or past the end of the source, and otherwise returns the
`min(amt, remaining)` bytes at the cursor, advancing the tracked position
by the number of bytes actually read. -/
def Archive.read (src : List Nat) (a : Archive) (amt : Nat) :
    Archive × Except IoKind (List Nat) :=
  if src.length ≤ a.pos then (a, .error .endOfFile)
  else
    let bytes := (src.drop a.pos).take amt
    ({ pos := a.pos + bytes.length }, .ok bytes)

/-- Rust `Archive::seek` (the private helper): a no-op when the tracked
position already equals the requested one; otherwise it issues the
underlying source's seek (abstracted as `usk`, so that its possible
failure is represented) and updates the tracked position on success. -/
def Archive.seek (usk : Nat → Except IoKind Unit) (a : Archive) (p : Nat) :
    Except IoKind Archive :=
  if a.pos = p then .ok a
  else
    match usk p with
    | .error e => .error e
    | .ok _ => .ok { pos := p }

/-- The underlying seek of the `List Nat` source model: seeking a
`BufReader` to any absolute non-negative offset succeeds. -/
def bufSeek : Nat → Except IoKind Unit := fun _ => .ok ()

/-- Rust `Archive::new`: tracked position starts at 0. -/
def Archive.new : Archive := { pos := 0 }

/-- Rust `Archive::files`: seek to 0 (through the position-eliding
`Archive::seek`), then build the iterator with `done = false`,
`offset = 0`.  The underlying seek is abstracted as `usk`. -/
def Archive.files (usk : Nat → Except IoKind Unit) (a : Archive) :
    Except IoKind (Archive × FilesState) :=
  match Archive.seek usk a 0 with
  | .error e => .error e
  | .ok a' => .ok (a', { done := false, offset := 0 })

/-- Rust `Files::next`, lines 131-154: the part after the block-scanning
loop.  `chunk` is the 512-byte block just read, `a` the archive cursor
after reading it, and `off` the iterator offset after the
`self.offset += 512` for this block (which is also `File::tar_offset`).
Validates the checksum, decodes the size, and advances the offset past
the data rounded up to the next 512-byte boundary. -/
def parseChunk (chunk : List Nat) (a : Archive) (off : Nat) :
    Archive × FilesState × Option (Except IoKind File) :=
  let sum := headerSum chunk
  let hd := mkHeader chunk
  let ret : File := { header := hd, tar_offset := off, pos := 0, size := 0 }
  match ret.cksum with
  | .error e => (a, { done := true, offset := off }, some (.error e))
  | .ok c =>
    if sum ≠ c then (a, { done := true, offset := off }, some (.error .badArchive))
    else
      match ret.calc_size with
      | .error e => (a, { done := true, offset := off }, some (.error e))
      | .ok sz =>
        (a, { done := false, offset := off + padSize sz },
         some (.ok { ret with size := sz }))

/-- Rust `Files::next` (`impl Iterator for Files`): returns immediately
when `done`; otherwise seeks the archive to `offset` and scans 512-byte
blocks.  A failed or short read is a terminal error; an all-zero block is
skipped once (`offset += 512`), and a second consecutive all-zero block
ends the iteration with no entry; a nonzero block is parsed by
`parseChunk`.  The scanning loop of the source runs at most twice (the
local counter `cnt` exits it at 2), so it is unrolled here. -/
def Files.next (src : List Nat) (a : Archive) (s : FilesState) :
    Archive × FilesState × Option (Except IoKind File) :=
  if s.done then (a, s, none)
  else
    match Archive.seek bufSeek a s.offset with
    | .error e => (a, { s with done := true }, some (.error e))
    | .ok a0 =>
      match Archive.read src a0 512 with
      | (a1, .error e) => (a1, { s with done := true }, some (.error e))
      | (a1, .ok c1) =>
        if c1.length ≠ 512 then
          (a1, { s with done := true }, some (.error .badArchive))
        else if !(isZeroBlock c1) then
          parseChunk c1 a1 (s.offset + 512)
        else
          match Archive.read src a1 512 with
          | (a2, .error e) =>
            (a2, { done := true, offset := s.offset + 512 }, some (.error e))
          | (a2, .ok c2) =>
            if c2.length ≠ 512 then
              (a2, { done := true, offset := s.offset + 512 },
               some (.error .badArchive))
            else if !(isZeroBlock c2) then
              parseChunk c2 a2 (s.offset + 1024)
            else
              (a2, { done := true, offset := s.offset + 1024 }, none)

/-- Rust `impl Reader for File`: end-of-file when the logical position
equals the size; otherwise seek the shared cursor to
`tar_offset + pos`, read `min(size - pos, buffer length)` bytes through
it, and advance the logical position by the number of bytes actually
read (the returned count is the length of the returned byte list). -/
def File.read (src : List Nat) (a : Archive) (f : File) (bufLen : Nat) :
    Archive × File × Except IoKind (List Nat) :=
  if f.size = f.pos then (a, f, .error .endOfFile)
  else
    match Archive.seek bufSeek a (f.tar_offset + f.pos) with
    | .error e => (a, f, .error e)
    | .ok a0 =>
      let amt := min (f.size - f.pos) bufLen
      match Archive.read src a0 amt with
      | (a1, .error e) => (a1, f, .error e)
      | (a1, .ok bytes) =>
        (a1, { f with pos := f.pos + bytes.length }, .ok bytes)

/-- Rust `io::SeekStyle`. -/
inductive SeekStyle where
  | SeekSet
  | SeekCur
  | SeekEnd
deriving DecidableEq, Repr

/-- Two's-complement wrap-around of `i64` arithmetic. -/
def wrap64 (x : Int) : Int := (x + 2 ^ 63) % 2 ^ 64 - 2 ^ 63

/-- Rust `impl Seek for File`: compute the candidate position per the
seek style (with `u64 as i64` casts and wrapping `i64` addition), reject
a negative candidate or one exceeding `size` with
`standard_error(OtherIoError)` leaving `pos` unchanged, and otherwise set
`pos` to the candidate.  It never touches the underlying source (the
Rust impl has no `Reader`/`Seek` bound on `R` and never uses the
archive), which is why no source or cursor appears in this model. -/
def File.seek (f : File) (pos : Int) (style : SeekStyle) :
    File × Except IoKind Unit :=
  let next : Int :=
    match style with
    | .SeekSet => pos
    | .SeekCur => wrap64 ((f.pos : Int) + pos)
    | .SeekEnd => wrap64 ((f.size : Int) + pos)
  if next < 0 then (f, .error .otherErr)
  else if f.size < next.toNat then (f, .error .otherErr)
  else ({ f with pos := next.toNat }, .ok ())

/-- The candidate position of a seek request as the specification states
it — the mathematical (unwrapped) value `offset`, `position + offset` or
`size + offset` per the seek style.  Stated from the spec's words; the
code's `File.seek` is proved to match it on the `i64` range. -/
def seekCand (f : File) (off : Int) : SeekStyle → Int
  | .SeekSet => off
  | .SeekCur => (f.pos : Int) + off
  | .SeekEnd => (f.size : Int) + off

/-- Driving the iterator: call `Files.next` up to `fuel` times, collecting
the yielded results, stopping at the first `None` (as a `for` loop over
the iterator does). -/
def runFiles (src : List Nat) : Nat → Archive → FilesState →
    List (Except IoKind File) × FilesState
  | 0, _, s => ([], s)
  | fuel + 1, a, s =>
    match Files.next src a s with
    | (_, s', none) => ([], s')
    | (a', s', some r) =>
      let t := runFiles src fuel a' s'
      (r :: t.1, t.2)

/-- Models the stdlib `read_to_end` loop a caller drives on a `File`:
repeatedly read with a buffer of length `bufLen`, concatenating the bytes,
stopping at the first error (for an in-bounds entry the only error is the
normal `endOfFile` exhaustion signal). -/
def readToEnd (src : List Nat) : Nat → Archive → File → Nat →
    Archive × File × List Nat
  | 0, a, f, _ => (a, f, [])
  | fuel + 1, a, f, bufLen =>
    match File.read src a f bufLen with
    | (a', f', .error _) => (a', f', [])
    | (a', f', .ok bytes) =>
      let t := readToEnd src fuel a' f' bufLen
      (t.1, t.2.1, bytes ++ t.2.2)

/-- The decoded size of an entry given as (header chunk, padded data
region), read off the header's size field. -/
def entrySize (e : List Nat × List Nat) : Nat :=
  (parseOctal (truncate (mkHeader e.1).size)).getD 0

/-- A well-formed archive entry, as (512-byte header chunk, padded data
region): the chunk is a full nonzero block whose stored checksum parses
to the computed sum, whose size field parses, and whose data region
occupies exactly the size rounded up to the next 512-byte boundary. -/
def validEntry (e : List Nat × List Nat) : Prop :=
  e.1.length = 512 ∧ isZeroBlock e.1 = false ∧
  parseOctal (trimBytes (truncate (mkHeader e.1).cksum)) = some (headerSum e.1) ∧
  parseOctal (truncate (mkHeader e.1).size) = some (entrySize e) ∧
  e.2.length = padSize (entrySize e)

instance (e : List Nat × List Nat) : Decidable (validEntry e) := by
  unfold validEntry; infer_instance

/-- The on-disk bytes of one entry: header chunk then padded data. -/
def entryBytes (e : List Nat × List Nat) : List Nat := e.1 ++ e.2

/-- The on-disk bytes of an archive made of the given entries followed by
the end-of-archive marker: two all-zero 512-byte blocks. -/
def archiveBytes (es : List (List Nat × List Nat)) : List Nat :=
  (es.map entryBytes).flatten ++ List.replicate 1024 0

/-- The entry views the iterator is expected to yield for the given
entries when the first header block sits at absolute offset `off`. -/
def expectedFiles (off : Nat) : List (List Nat × List Nat) → List File
  | [] => []
  | e :: es =>
    { header := mkHeader e.1, tar_offset := off + 512, pos := 0,
      size := entrySize e } ::
    expectedFiles (off + 512 + e.2.length) es

/-! ### Concrete archives used as test vectors -/

/-- A 512-byte block of bytes 1: nonzero, with an unparsable checksum
field (byte 1 is neither a digit nor whitespace). -/
def chunkOnes : List Nat := List.replicate 512 1

/-- A header block whose checksum is valid (stored "521" = 337 octal,
matching the computed sum 49 + 32 + 256) but whose size field is
`"1 \0...\0"` — an octal digit, then a space, then NUL padding. -/
def spaceSizeChunk : List Nat :=
  List.replicate 124 0 ++ [49, 32] ++ List.replicate 10 0 ++
  List.replicate 12 0 ++ [53, 50, 49] ++ List.replicate 5 0 ++
  List.replicate 356 0

/-- A valid header block: name `"a"`, size field `"0"` (NUL padded),
checksum field `"621\0 \0\0\0"` — 621 octal = 401 = 97 + 48 + 256. -/
def goodChunk : List Nat :=
  [97] ++ List.replicate 99 0 ++ List.replicate 24 0 ++ [48] ++
  List.replicate 11 0 ++ List.replicate 12 0 ++
  [54, 50, 49, 0, 32, 0, 0, 0] ++ List.replicate 356 0

/-- A well-formed single-entry archive: `goodChunk`, an empty data region
(size 0), then the end-of-archive marker (two all-zero blocks). -/
def goodArchive : List Nat := goodChunk ++ List.replicate 1024 0

/-- `goodChunk` with the checksum-field byte at offset 152 — the byte
right after the field's NUL terminator — changed from 32 to 88. -/
def postNulChunk : List Nat := goodChunk.set 152 88

/-- The archive whose header is `postNulChunk`: equals `goodArchive` with
the single byte at offset 152 changed. -/
def postNulArchive : List Nat := postNulChunk ++ List.replicate 1024 0

/-- `goodArchive` with the checksum-field byte at offset 148 (its first
digit) changed from 54 to 55, so the stored value no longer matches. -/
def badDigitArchive : List Nat := goodArchive.set 148 55

/-- The entry view yielded for `goodChunk` at offset 0. -/
def goodFile : File :=
  { header := mkHeader goodChunk, tar_offset := 512, pos := 0, size := 0 }

/-- The entry view yielded for the header of `postNulArchive`. -/
def postNulFile : File :=
  { header := mkHeader postNulChunk, tar_offset := 512, pos := 0, size := 0 }

/-- A six-byte source used to exercise the entry reader. -/
def tinySrc : List Nat := [9, 9, 10, 11, 12, 9]

/-- An entry view over bytes [2, 5) of `tinySrc`. -/
def tinyFile : File :=
  { header := mkHeader (List.replicate 512 0), tar_offset := 2, pos := 0,
    size := 3 }

/-! ## Helper lemmas -/

theorem seek_bufSeek (a : Archive) (p : Nat) :
    Archive.seek bufSeek a p = .ok ⟨p⟩ := by
  rcases a with ⟨q⟩
  by_cases h : q = p
  · subst h; simp [Archive.seek]
  · simp [Archive.seek, bufSeek, h]

theorem filesNext_done (src : List Nat) (a : Archive) (s : FilesState)
    (h : s.done = true) : Files.next src a s = (a, s, none) := by
  unfold Files.next
  rw [h]
  simp

theorem runFiles_done (src : List Nat) (fuel : Nat) (a : Archive)
    (s : FilesState) (h : s.done = true) :
    runFiles src fuel a s = ([], s) := by
  cases fuel with
  | zero => rfl
  | succ k =>
    unfold runFiles
    rw [filesNext_done src a s h]

theorem isZeroBlock_replicate (n : Nat) :
    isZeroBlock (List.replicate n 0) = true := by
  induction n with
  | zero => rfl
  | succ k ih =>
    simp only [isZeroBlock, List.replicate_succ, List.any_cons] at ih ⊢
    simp [ih]

theorem wrap64_eq (x : Int) (h1 : -(2 ^ 63) ≤ x) (h2 : x < 2 ^ 63) :
    wrap64 x = x := by
  unfold wrap64
  rw [Int.emod_eq_of_lt (by omega) (by omega)]
  omega

theorem wrap64_high (x : Int) (h1 : 2 ^ 63 ≤ x) (h2 : x < 2 ^ 64) :
    wrap64 x = x - 2 ^ 64 := by
  unfold wrap64
  have h3 : (x + 2 ^ 63) % 2 ^ 64 = (x + 2 ^ 63 - 2 ^ 64) % 2 ^ 64 :=
    (Int.emod_sub_cancel (x + 2 ^ 63) (2 ^ 64)).symm
  rw [h3, Int.emod_eq_of_lt (by omega) (by omega)]
  omega

theorem testBit_mask (i : Nat) :
    (2 ^ 64 - 512 : Nat).testBit i = (decide (9 ≤ i) && decide (i < 64)) := by
  have hmask : (2 ^ 64 - 512 : Nat) = (2 ^ 55 - 1) <<< 9 := by
    rw [Nat.shiftLeft_eq]
    norm_num
  rw [hmask, Nat.testBit_shiftLeft, Nat.testBit_two_pow_sub_one]
  rcases Nat.lt_or_ge i 9 with h | h
  · simp [Nat.not_le.mpr h]
  · by_cases h64 : i < 64
    · simp [h, show i - 9 < 55 by omega, h64]
    · simp [h, show ¬(i - 9 < 55) by omega, h64]

theorem land_mask (m : Nat) (h : m < 2 ^ 64) :
    Nat.land m (2 ^ 64 - 512) = m / 512 * 512 := by
  have hdiv : m / 512 * 512 = (m >>> 9) <<< 9 := by
    rw [Nat.shiftLeft_eq, Nat.shiftRight_eq_div_pow]
  apply Nat.eq_of_testBit_eq
  intro i
  rw [show Nat.land m (2 ^ 64 - 512) = m &&& (2 ^ 64 - 512) from rfl]
  rw [Nat.testBit_land, testBit_mask, hdiv, Nat.testBit_shiftLeft,
    Nat.testBit_shiftRight]
  rcases Nat.lt_or_ge i 9 with h9 | h9
  · simp [Nat.not_le.mpr h9]
  · have h99 : 9 + (i - 9) = i := by omega
    rw [h99]
    by_cases h64 : i < 64
    · simp [h9, h64]
    · have hbit : m.testBit i = false := by
        apply Nat.testBit_lt_two_pow
        calc m < 2 ^ 64 := h
          _ ≤ 2 ^ i := Nat.pow_le_pow_right (by norm_num) (by omega)
      simp [hbit]

theorem padSize_eq (n : Nat) (h : n + 511 < 2 ^ 64) :
    padSize n = (n + 511) / 512 * 512 := by
  unfold padSize
  exact land_mask (n + 511) h

theorem octFold_lt (s : List Nat) :
    ∀ acc : Nat, (∀ b ∈ s, b ≤ 55) →
    s.foldl (fun a b => a * 8 + (b - 48)) acc < (acc + 1) * 8 ^ s.length := by
  induction s with
  | nil => intro acc _; simp
  | cons b t ih =>
    intro acc hb
    have h1 := ih (acc * 8 + (b - 48))
      (fun x hx => hb x (List.mem_cons_of_mem _ hx))
    have hbb : b - 48 ≤ 7 := by
      have := hb b (List.mem_cons_self _ _)
      omega
    have h2 : acc * 8 + (b - 48) + 1 ≤ (acc + 1) * 8 := by omega
    calc (b :: t).foldl (fun a b => a * 8 + (b - 48)) acc
        = t.foldl (fun a b => a * 8 + (b - 48)) (acc * 8 + (b - 48)) := rfl
      _ < (acc * 8 + (b - 48) + 1) * 8 ^ t.length := h1
      _ ≤ (acc + 1) * 8 * 8 ^ t.length := Nat.mul_le_mul_right _ h2
      _ = (acc + 1) * 8 ^ (b :: t).length := by
          rw [List.length_cons, pow_succ]
          ring

theorem parseOctal_lt (s : List Nat) (n : Nat) (h : parseOctal s = some n) :
    n < 8 ^ s.length := by
  unfold parseOctal at h
  split at h
  · exact absurd h (by simp)
  · split at h
    · next hall =>
      injection h with h'
      subst h'
      have hb : ∀ b ∈ s, b ≤ 55 := by
        intro b hbm
        have := List.all_eq_true.mp hall b hbm
        simp only [Bool.and_eq_true, decide_eq_true_eq] at this
        exact this.2
      simpa using octFold_lt s 0 hb
    · exact absurd h (by simp)

theorem parseChunk_valid (chunk : List Nat) (a : Archive) (off sz : Nat)
    (hc : parseOctal (trimBytes (truncate (mkHeader chunk).cksum)) =
      some (headerSum chunk))
    (hs : parseOctal (truncate (mkHeader chunk).size) = some sz) :
    parseChunk chunk a off =
      (a, { done := false, offset := off + padSize sz },
       some (.ok { header := mkHeader chunk, tar_offset := off, pos := 0,
                   size := sz })) := by
  unfold parseChunk File.cksum File.calc_size
  simp only [hc, hs]
  simp

theorem parseChunk_badCksum (chunk : List Nat) (a : Archive) (off : Nat)
    (h : ∀ n, parseOctal (trimBytes (truncate (mkHeader chunk).cksum)) = some n →
      n ≠ headerSum chunk) :
    parseChunk chunk a off =
      (a, { done := true, offset := off }, some (.error .badArchive)) := by
  unfold parseChunk File.cksum
  cases hp : parseOctal (trimBytes (truncate (mkHeader chunk).cksum)) with
  | none => simp [hp]
  | some n =>
    have hne : headerSum chunk ≠ n := fun he => (h n hp) (he ▸ rfl)
    simp [hp, hne]

theorem parseChunk_badSize (chunk : List Nat) (a : Archive) (off : Nat)
    (hc : parseOctal (trimBytes (truncate (mkHeader chunk).cksum)) =
      some (headerSum chunk))
    (hs : parseOctal (truncate (mkHeader chunk).size) = none) :
    parseChunk chunk a off =
      (a, { done := true, offset := off }, some (.error .badArchive)) := by
  unfold parseChunk File.cksum File.calc_size
  simp only [hc, hs]
  simp

theorem parseChunk_ok_inv (chunk : List Nat) (a : Archive) (off : Nat)
    (a' : Archive) (s' : FilesState) (f : File)
    (h : parseChunk chunk a off = (a', s', some (.ok f))) :
    a' = a ∧ f.header = mkHeader chunk ∧ f.tar_offset = off ∧ f.pos = 0 ∧
    parseOctal (truncate (mkHeader chunk).size) = some f.size ∧
    s' = ⟨false, off + padSize f.size⟩ := by
  unfold parseChunk File.cksum File.calc_size at h
  dsimp only at h
  split at h
  · simp at h
  · split at h
    · simp at h
    · split at h
      · simp at h
      · next sz heq =>
        simp only [Prod.mk.injEq, Option.some.injEq, Except.ok.injEq] at h
        obtain ⟨h1, h2, h3⟩ := h
        subst h2
        subst h3
        have hps : parseOctal (truncate (mkHeader chunk).size) = some sz := by
          split at heq
          · next n hn =>
            injection heq with h'
            rw [hn, h']
          · exact absurd heq (by simp)
        exact ⟨h1.symm, rfl, rfl, rfl, hps, rfl⟩

theorem parseChunk_err_done (chunk : List Nat) (a : Archive) (off : Nat)
    (a' : Archive) (s' : FilesState) (e : IoKind)
    (h : parseChunk chunk a off = (a', s', some (.error e))) :
    s'.done = true := by
  unfold parseChunk File.cksum File.calc_size at h
  dsimp only at h
  split at h
  · simp only [Prod.mk.injEq] at h
    exact h.2.1 ▸ rfl
  · split at h
    · simp only [Prod.mk.injEq] at h
      exact h.2.1 ▸ rfl
    · split at h
      · simp only [Prod.mk.injEq] at h
        exact h.2.1 ▸ rfl
      · simp at h

theorem filesNext_parse (src : List Nat) (a : Archive) (s : FilesState)
    (chunk : List Nat)
    (hdone : s.done = false)
    (hread : Archive.read src ⟨s.offset⟩ 512 = (⟨s.offset + 512⟩, .ok chunk))
    (hlen : chunk.length = 512)
    (hnz : isZeroBlock chunk = false) :
    Files.next src a s = parseChunk chunk ⟨s.offset + 512⟩ (s.offset + 512) := by
  unfold Files.next
  rw [seek_bufSeek]
  simp only [hdone, Bool.false_eq_true, if_false]
  rw [hread]
  simp only [hlen, ne_eq, not_true_eq_false, if_false, hnz, Bool.not_false,
    if_true]

theorem filesNext_skip (src : List Nat) (a : Archive) (s : FilesState)
    (c1 chunk : List Nat)
    (hdone : s.done = false)
    (hread1 : Archive.read src ⟨s.offset⟩ 512 = (⟨s.offset + 512⟩, .ok c1))
    (hlen1 : c1.length = 512)
    (hz1 : isZeroBlock c1 = true)
    (hread2 : Archive.read src ⟨s.offset + 512⟩ 512 =
      (⟨s.offset + 1024⟩, .ok chunk))
    (hlen2 : chunk.length = 512)
    (hnz : isZeroBlock chunk = false) :
    Files.next src a s = parseChunk chunk ⟨s.offset + 1024⟩ (s.offset + 1024) := by
  unfold Files.next
  rw [seek_bufSeek]
  simp only [hdone, Bool.false_eq_true, if_false]
  rw [hread1]
  simp only [hlen1, ne_eq, not_true_eq_false, if_false, hz1, Bool.not_true,
    Bool.false_eq_true]
  rw [hread2]
  simp only [hlen2, ne_eq, not_true_eq_false, if_false, hnz, Bool.not_false,
    if_true]

theorem filesNext_endzeros (src : List Nat) (a : Archive) (s : FilesState)
    (c1 c2 : List Nat)
    (hdone : s.done = false)
    (hread1 : Archive.read src ⟨s.offset⟩ 512 = (⟨s.offset + 512⟩, .ok c1))
    (hlen1 : c1.length = 512)
    (hz1 : isZeroBlock c1 = true)
    (hread2 : Archive.read src ⟨s.offset + 512⟩ 512 =
      (⟨s.offset + 1024⟩, .ok c2))
    (hlen2 : c2.length = 512)
    (hz2 : isZeroBlock c2 = true) :
    Files.next src a s =
      (⟨s.offset + 1024⟩, ⟨true, s.offset + 1024⟩, none) := by
  unfold Files.next
  rw [seek_bufSeek]
  simp only [hdone, Bool.false_eq_true, if_false]
  rw [hread1]
  simp only [hlen1, ne_eq, not_true_eq_false, if_false, hz1, Bool.not_true,
    Bool.false_eq_true]
  rw [hread2]
  simp only [hlen2, ne_eq, not_true_eq_false, if_false, hz2, Bool.not_true,
    Bool.false_eq_true]

theorem archiveRead_ok_inv (src : List Nat) (p amt : Nat) (a1 : Archive)
    (bs : List Nat) (h : Archive.read src ⟨p⟩ amt = (a1, .ok bs)) :
    bs = (src.drop p).take amt ∧ a1 = ⟨p + bs.length⟩ ∧ p < src.length := by
  unfold Archive.read at h
  split at h
  · simp at h
  · next hlt =>
    dsimp only at h
    simp only [Prod.mk.injEq, Except.ok.injEq] at h
    refine ⟨h.2.symm, ?_, by simp at hlt; omega⟩
    rw [← h.1, h.2]

theorem filesNext_err_done (src : List Nat) (a : Archive) (s : FilesState)
    (a' : Archive) (s' : FilesState) (e : IoKind)
    (h : Files.next src a s = (a', s', some (.error e))) : s'.done = true := by
  unfold Files.next at h
  split at h
  · simp at h
  · rw [seek_bufSeek] at h
    dsimp only at h
    split at h
    · simp only [Prod.mk.injEq] at h
      exact h.2.1 ▸ rfl
    · split at h
      · simp only [Prod.mk.injEq] at h
        exact h.2.1 ▸ rfl
      · split at h
        · exact parseChunk_err_done _ _ _ _ _ _ h
        · split at h
          · simp only [Prod.mk.injEq] at h
            exact h.2.1 ▸ rfl
          · split at h
            · simp only [Prod.mk.injEq] at h
              exact h.2.1 ▸ rfl
            · split at h
              · exact parseChunk_err_done _ _ _ _ _ _ h
              · simp at h

theorem filesNext_ok_inv (src : List Nat) (a : Archive) (s : FilesState)
    (a' : Archive) (s' : FilesState) (f : File)
    (h : Files.next src a s = (a', s', some (.ok f))) :
    f.pos = 0 ∧ 512 ≤ f.tar_offset ∧
    f.header = mkHeader ((src.drop (f.tar_offset - 512)).take 512) ∧
    parseOctal (truncate f.header.size) = some f.size ∧
    s'.offset = f.tar_offset + padSize f.size := by
  unfold Files.next at h
  split at h
  · simp at h
  · rw [seek_bufSeek] at h
    dsimp only at h
    split at h
    · simp at h
    · next a1 c1 heq1 =>
      split at h
      · simp at h
      · next hlen1 =>
        have hc1 := archiveRead_ok_inv _ _ _ _ _ heq1
        split at h
        · obtain ⟨ha, hh, hto, hp, hps, hs⟩ := parseChunk_ok_inv _ _ _ _ _ _ h
          refine ⟨hp, by omega, ?_, by rw [hh]; exact hps, by rw [hs, hto]⟩
          rw [hh, hto, Nat.add_sub_cancel, ← hc1.1]
        · split at h
          · simp at h
          · next a2 c2 heq2 =>
            split at h
            · simp at h
            · next hlen2 =>
              split at h
              · obtain ⟨ha, hh, hto, hp, hps, hs⟩ :=
                  parseChunk_ok_inv _ _ _ _ _ _ h
                have hc1l : c1.length = 512 := not_ne_iff.mp hlen1
                have ha1 : a1 = ⟨s.offset + 512⟩ := by
                  rw [hc1.2.1, hc1l]
                rw [ha1] at heq2
                have hc2 := archiveRead_ok_inv _ _ _ _ _ heq2
                refine ⟨hp, by omega, ?_, by rw [hh]; exact hps,
                  by rw [hs, hto]⟩
                rw [hh, hto]
                have harith : s.offset + 1024 - 512 = s.offset + 512 := by omega
                rw [harith, ← hc2.1]
              · simp at h

/-! ## Claim theorems -/

/-- Claim C1: for every 512-byte header block scanned by the iterator, the
computed checksum equals the sum of the bytes at offsets [0,148) plus the
sum of the bytes at offsets [156,512), each taken as an unsigned value,
plus the constant 256; it is compared with the integer obtained from the
header's checksum field by NUL-truncation, whitespace trimming and base-8
parsing, and any mismatch (or unparsable field) rejects the header as a
malformed-archive error that terminates the iterator (`done` is set). -/
theorem c1_checksum_rejects (src : List Nat) (a : Archive) (s : FilesState)
    (chunk : List Nat)
    (hdone : s.done = false)
    (hread : Archive.read src ⟨s.offset⟩ 512 = (⟨s.offset + 512⟩, .ok chunk))
    (hlen : chunk.length = 512)
    (hnz : isZeroBlock chunk = false)
    (hbad : ∀ n,
      parseOctal (trimBytes (truncate (mkHeader chunk).cksum)) = some n →
      n ≠ (chunk.take 148).sum + (chunk.drop 156).sum + 32 * 8) :
    Files.next src a s =
      (⟨s.offset + 512⟩, ⟨true, s.offset + 512⟩,
       some (.error .badArchive)) := by
  rw [filesNext_parse src a s chunk hdone hread hlen hnz]
  exact parseChunk_badCksum chunk _ _ (fun n hp => hbad n hp)

theorem c1_checksum_rejects_witness :
    Files.next chunkOnes ⟨0⟩ ⟨false, 0⟩ =
      (⟨512⟩, ⟨true, 512⟩, some (.error .badArchive)) := by
  have hnone : parseOctal (trimBytes (truncate (mkHeader chunkOnes).cksum)) =
      none := by rfl
  exact c1_checksum_rejects chunkOnes ⟨0⟩ ⟨false, 0⟩ chunkOnes rfl rfl rfl rfl
    (by intro n hn; rw [hnone] at hn; cases hn)

/-- Claim C2: every entry yielded by the iterator has `pos = 0`, its
`tar_offset` (the data offset) is the absolute offset of the byte
immediately following its 512-byte header block (the header is exactly the
512 source bytes ending at `tar_offset`), and the iterator's next-header
offset is advanced to `tar_offset + round_up(size, 512)`, i.e. the header
offset plus 512 plus the data size rounded up to a 512-byte boundary. -/
theorem c2_entry_offsets (src : List Nat) (a : Archive) (s : FilesState)
    (a' : Archive) (s' : FilesState) (f : File)
    (h : Files.next src a s = (a', s', some (.ok f))) :
    f.pos = 0 ∧ 512 ≤ f.tar_offset ∧
    f.header = mkHeader ((src.drop (f.tar_offset - 512)).take 512) ∧
    s'.offset = f.tar_offset + (f.size + 511) / 512 * 512 := by
  obtain ⟨hp, hge, hh, hps, hoff⟩ := filesNext_ok_inv _ _ _ _ _ _ h
  refine ⟨hp, hge, hh, ?_⟩
  rw [hoff]
  congr 1
  apply padSize_eq
  have h1 : (truncate f.header.size).length ≤ 12 := by
    have h2 : f.header.size.length ≤ 12 := by
      rw [hh]
      simp [mkHeader, List.length_take]
    calc (truncate f.header.size).length ≤ f.header.size.length :=
          (List.takeWhile_sublist _).length_le
      _ ≤ 12 := h2
  have h3 := parseOctal_lt _ _ hps
  have h4 : (8 : Nat) ^ (truncate f.header.size).length ≤ 8 ^ 12 :=
    Nat.pow_le_pow_right (by norm_num) h1
  have h5 : (8 : Nat) ^ 12 = 68719476736 := by norm_num
  have h6 : (2 : Nat) ^ 64 = 18446744073709551616 := by norm_num
  omega

theorem c2_entry_offsets_witness :
    goodFile.pos = 0 ∧ 512 ≤ goodFile.tar_offset ∧
    goodFile.header =
      mkHeader ((goodArchive.drop (goodFile.tar_offset - 512)).take 512) ∧
    (⟨false, 512⟩ : FilesState).offset =
      goodFile.tar_offset + (goodFile.size + 511) / 512 * 512 :=
  c2_entry_offsets goodArchive ⟨0⟩ ⟨false, 0⟩ ⟨512⟩ ⟨false, 512⟩ goodFile rfl

/-- Claim C6: an iterator call that returns an error sets the `done` flag,
and every call made while `done` is set returns no entry (`none`), never an
error, and leaves both the iterator state and the archive cursor
unchanged — so the first failure is reported exactly once. -/
theorem c6_terminal :
    (∀ (src : List Nat) (a : Archive) (s : FilesState), s.done = true →
      Files.next src a s = (a, s, none)) ∧
    (∀ (src : List Nat) (a a' : Archive) (s s' : FilesState) (e : IoKind),
      Files.next src a s = (a', s', some (.error e)) → s'.done = true) :=
  ⟨filesNext_done, fun src a a' s s' e h => filesNext_err_done src a s a' s' e h⟩

theorem c6_terminal_witness :
    Files.next [] ⟨7⟩ ⟨true, 5⟩ = (⟨7⟩, ⟨true, 5⟩, none) ∧
    (⟨true, 0⟩ : FilesState).done = true :=
  ⟨c6_terminal.1 [] ⟨7⟩ ⟨true, 5⟩ rfl,
   c6_terminal.2 [] ⟨0⟩ ⟨0⟩ ⟨false, 0⟩ ⟨true, 0⟩ .endOfFile rfl⟩

/-- Claim C10: a newly constructed archive has tracked position 0, so
`files()` on it elides the initial seek through the position-equality
check — for every behaviour of the underlying source's seek (even one
that always fails), construction of the iterator succeeds. -/
theorem c10_files_ok :
    Archive.new.pos = 0 ∧
    ∀ usk : Nat → Except IoKind Unit,
      Archive.files usk Archive.new = .ok (⟨0⟩, ⟨false, 0⟩) :=
  ⟨rfl, fun _ => rfl⟩

/-- Claim C7 (counterexample): `spaceSizeChunk` passes checksum validation
and its size field's NUL-truncated content parses as octal after trimming
surrounding whitespace (to the value 1), yet `calc_size` fails and the
iterator rejects the archive as malformed — because the code parses the
size field without trimming, unlike the checksum field. -/
theorem c7_counterexample :
    parseOctal (trimBytes (truncate (mkHeader spaceSizeChunk).size)) =
      some 1 ∧
    parseOctal (trimBytes (truncate (mkHeader spaceSizeChunk).cksum)) =
      some (headerSum spaceSizeChunk) ∧
    File.calc_size
      { header := mkHeader spaceSizeChunk, tar_offset := 512, pos := 0,
        size := 0 } = .error .badArchive ∧
    Files.next spaceSizeChunk ⟨0⟩ ⟨false, 0⟩ =
      (⟨512⟩, ⟨true, 512⟩, some (.error .badArchive)) :=
  ⟨rfl, rfl, rfl, rfl⟩

/-- Claim C7 (amended): for a header block that passes checksum
validation, decoding the size field succeeds — and the iterator yields the
entry — exactly when the field's NUL-truncated content parses directly as
a non-negative octal integer, with no whitespace trimming; if that parse
fails (e.g. a space-padded size field whose padding precedes the first
NUL), the header is rejected as a malformed archive. -/
theorem c7_size_no_trim (src : List Nat) (a : Archive) (s : FilesState)
    (chunk : List Nat)
    (hdone : s.done = false)
    (hread : Archive.read src ⟨s.offset⟩ 512 = (⟨s.offset + 512⟩, .ok chunk))
    (hlen : chunk.length = 512)
    (hnz : isZeroBlock chunk = false)
    (hck : parseOctal (trimBytes (truncate (mkHeader chunk).cksum)) =
      some (headerSum chunk)) :
    (∀ n, parseOctal (truncate (mkHeader chunk).size) = some n →
      Files.next src a s =
        (⟨s.offset + 512⟩, ⟨false, s.offset + 512 + padSize n⟩,
         some (.ok ⟨mkHeader chunk, s.offset + 512, 0, n⟩))) ∧
    (parseOctal (truncate (mkHeader chunk).size) = none →
      Files.next src a s =
        (⟨s.offset + 512⟩, ⟨true, s.offset + 512⟩,
         some (.error .badArchive))) := by
  constructor
  · intro n hn
    rw [filesNext_parse src a s chunk hdone hread hlen hnz]
    exact parseChunk_valid chunk _ _ n hck hn
  · intro hn
    rw [filesNext_parse src a s chunk hdone hread hlen hnz]
    exact parseChunk_badSize chunk _ _ hck hn

theorem c7_size_no_trim_witness :
    Files.next goodArchive ⟨0⟩ ⟨false, 0⟩ =
      (⟨512⟩, ⟨false, 512 + padSize 0⟩,
       some (.ok ⟨mkHeader goodChunk, 512, 0, 0⟩)) :=
  (c7_size_no_trim goodArchive ⟨0⟩ ⟨false, 0⟩ goodChunk rfl rfl rfl rfl
    rfl).1 0 rfl

/-- Claim C8 (counterexample): `goodArchive` is a well-formed archive
(iterating yields its one entry and ends cleanly); changing the single
checksum-field byte at offset 152 (inside [148,156), after the field's
NUL terminator) from 32 to a different value, 88, does NOT stop
iteration: the corrupted archive still yields its entry and ends with no
error, because NUL-truncation ignores bytes after the first NUL. -/
theorem c8_counterexample :
    runFiles goodArchive 2 ⟨0⟩ ⟨false, 0⟩ = ([.ok goodFile], ⟨true, 1536⟩) ∧
    postNulArchive = goodArchive.set 152 88 ∧
    goodArchive[152]? = some 32 ∧
    runFiles postNulArchive 2 ⟨0⟩ ⟨false, 0⟩ =
      ([.ok postNulFile], ⟨true, 1536⟩) :=
  ⟨rfl, rfl, rfl, rfl⟩

/-- Claim C8 (amended): corrupting a header's checksum field so that its
NUL-truncated, whitespace-trimmed content no longer parses to the
computed checksum sum makes iteration stop at that entry with a
malformed-archive failure, and no entries at or after the corrupted
header are ever yielded (every further drive of the iterator from the
resulting state yields nothing).  (The counterexample shows the claim's
stronger form — any single changed byte — is false: a change after the
field's first NUL leaves the parsed value intact and is accepted.) -/
theorem c8_cksum_corrupt (src : List Nat) (a : Archive) (s : FilesState)
    (chunk : List Nat)
    (hdone : s.done = false)
    (hread : Archive.read src ⟨s.offset⟩ 512 = (⟨s.offset + 512⟩, .ok chunk))
    (hlen : chunk.length = 512)
    (hnz : isZeroBlock chunk = false)
    (hbad : ∀ n,
      parseOctal (trimBytes (truncate (mkHeader chunk).cksum)) = some n →
      n ≠ headerSum chunk) :
    Files.next src a s =
      (⟨s.offset + 512⟩, ⟨true, s.offset + 512⟩,
       some (.error .badArchive)) ∧
    ∀ (fuel : Nat) (a2 : Archive),
      runFiles src fuel a2 ⟨true, s.offset + 512⟩ =
        ([], ⟨true, s.offset + 512⟩) := by
  constructor
  · rw [filesNext_parse src a s chunk hdone hread hlen hnz]
    exact parseChunk_badCksum chunk _ _ hbad
  · intro fuel a2
    exact runFiles_done src fuel a2 _ rfl

theorem c8_cksum_corrupt_witness :
    Files.next badDigitArchive ⟨0⟩ ⟨false, 0⟩ =
      (⟨512⟩, ⟨true, 512⟩, some (.error .badArchive)) ∧
    runFiles badDigitArchive 5 ⟨99⟩ ⟨true, 512⟩ = ([], ⟨true, 512⟩) := by
  have hbad : ∀ n,
      parseOctal (trimBytes (truncate (mkHeader (goodChunk.set 148 55)).cksum)) =
        some n →
      n ≠ headerSum (goodChunk.set 148 55) := by
    intro n hn
    rw [show parseOctal
        (trimBytes (truncate (mkHeader (goodChunk.set 148 55)).cksum)) =
        some 465 from rfl] at hn
    injection hn with h2
    rw [show headerSum (goodChunk.set 148 55) = 401 from rfl]
    omega
  have h := c8_cksum_corrupt badDigitArchive ⟨0⟩ ⟨false, 0⟩
    (goodChunk.set 148 55) rfl rfl rfl rfl hbad
  exact ⟨h.1, h.2 5 ⟨99⟩⟩

/-- Claim C4: reading an entry view with `position = size` returns the
end-of-data condition (`endOfFile`, normal stream exhaustion, distinct
from the malformed-archive error) touching nothing; with
`position < size` the read repositions the shared cursor to
`data_offset + position`, requests exactly `min(size - position, buffer
length)` bytes — a range that never reaches `data_offset + size` — and
advances `position` by the number of bytes actually read, returning them. -/
theorem c4_bounded_read (src : List Nat) (a : Archive) (f : File) (b : Nat)
    (_hinv : f.pos ≤ f.size) :
    (f.pos = f.size → File.read src a f b = (a, f, .error .endOfFile)) ∧
    (f.pos < f.size →
      f.tar_offset + f.pos + min (f.size - f.pos) b ≤
        f.tar_offset + f.size ∧
      File.read src a f b =
        match Archive.read src ⟨f.tar_offset + f.pos⟩
            (min (f.size - f.pos) b) with
        | (a1, .error e) => (a1, f, .error e)
        | (a1, .ok bytes) =>
          (a1, { f with pos := f.pos + bytes.length }, .ok bytes)) := by
  constructor
  · intro heq
    unfold File.read
    rw [if_pos heq.symm]
  · intro hlt
    refine ⟨by omega, ?_⟩
    unfold File.read
    rw [if_neg (by omega), seek_bufSeek]

theorem c4_bounded_read_witness :
    tinyFile.tar_offset + tinyFile.pos +
      min (tinyFile.size - tinyFile.pos) 2 ≤
      tinyFile.tar_offset + tinyFile.size ∧
    File.read tinySrc ⟨0⟩ tinyFile 2 =
      (⟨4⟩, { tinyFile with pos := 2 }, .ok [10, 11]) ∧
    File.read tinySrc ⟨0⟩ { tinyFile with pos := 3 } 2 =
      (⟨0⟩, { tinyFile with pos := 3 }, .error .endOfFile) := by
  have h := c4_bounded_read tinySrc ⟨0⟩ tinyFile 2 (by decide)
  have h2 := c4_bounded_read tinySrc ⟨0⟩ { tinyFile with pos := 3 } 2
    (by decide)
  refine ⟨(h.2 (by decide)).1, ?_, h2.1 rfl⟩
  rw [(h.2 (by decide)).2]
  rfl

/-- Claim C5: for every seek request (offset, style) in the `i64` range,
if the candidate position (`offset`, `position + offset` or
`size + offset` for FromStart/FromCurrent/FromEnd, i.e. `seekCand`) is
negative or exceeds `size`, the seek returns an out-of-range error and
the position is unchanged; otherwise the position is set to the candidate
and `Ok` is returned.  `File.seek` takes no source or cursor argument
(the Rust impl has no bound on `R` and never touches the archive), so
seeking performs no operation on the underlying source. -/
theorem c5_seek_bounds (f : File) (off : Int) (style : SeekStyle)
    (_hinv : f.pos ≤ f.size) (hsz : (f.size : Int) < 2 ^ 63)
    (hlo : -(2 ^ 63) ≤ off) (hhi : off < 2 ^ 63) :
    ((seekCand f off style < 0 ∨ (f.size : Int) < seekCand f off style) →
      File.seek f off style = (f, .error .otherErr)) ∧
    (0 ≤ seekCand f off style → seekCand f off style ≤ (f.size : Int) →
      File.seek f off style =
        ({ f with pos := (seekCand f off style).toNat }, .ok ())) := by
  cases style with
  | SeekSet =>
    unfold File.seek seekCand
    dsimp only
    constructor
    · intro hbad
      rcases hbad with hneg | hbig
      · rw [if_pos hneg]
      · rw [if_neg (by omega), if_pos (by omega)]
    · intro h0 hle
      rw [if_neg (by omega), if_neg (by omega)]
  | SeekCur =>
    unfold File.seek seekCand
    dsimp only
    by_cases hw : (f.pos : Int) + off < 2 ^ 63
    · rw [wrap64_eq _ (by omega) hw]
      constructor
      · intro hbad
        rcases hbad with hneg | hbig
        · rw [if_pos hneg]
        · rw [if_neg (by omega), if_pos (by omega)]
      · intro h0 hle
        rw [if_neg (by omega), if_neg (by omega)]
    · rw [wrap64_high _ (by omega) (by omega)]
      constructor
      · intro hbad
        rw [if_pos (by omega)]
      · intro h0 hle
        omega
  | SeekEnd =>
    unfold File.seek seekCand
    dsimp only
    by_cases hw : (f.size : Int) + off < 2 ^ 63
    · rw [wrap64_eq _ (by omega) hw]
      constructor
      · intro hbad
        rcases hbad with hneg | hbig
        · rw [if_pos hneg]
        · rw [if_neg (by omega), if_pos (by omega)]
      · intro h0 hle
        rw [if_neg (by omega), if_neg (by omega)]
    · rw [wrap64_high _ (by omega) (by omega)]
      constructor
      · intro hbad
        rw [if_pos (by omega)]
      · intro h0 hle
        omega

theorem c5_seek_bounds_witness :
    File.seek tinyFile 2 .SeekCur =
      ({ tinyFile with pos := 2 }, .ok ()) ∧
    File.seek tinyFile 9 .SeekSet = (tinyFile, .error .otherErr) ∧
    File.seek tinyFile (-1) .SeekEnd = ({ tinyFile with pos := 2 }, .ok ()) ∧
    File.seek tinyFile (-4) .SeekEnd = (tinyFile, .error .otherErr) :=
  ⟨(c5_seek_bounds tinyFile 2 .SeekCur (by decide) (by decide) (by decide)
      (by decide)).2 (by decide) (by decide),
   (c5_seek_bounds tinyFile 9 .SeekSet (by decide) (by decide) (by decide)
      (by decide)).1 (Or.inr (by decide)),
   (c5_seek_bounds tinyFile (-1) .SeekEnd (by decide) (by decide) (by decide)
      (by decide)).2 (by decide) (by decide),
   (c5_seek_bounds tinyFile (-4) .SeekEnd (by decide) (by decide) (by decide)
      (by decide)).1 (Or.inl (by decide))⟩

theorem take_split (l : List Nat) (p m n : Nat) (h : m ≤ n) :
    (l.drop p).take n = (l.drop p).take m ++ (l.drop (p + m)).take (n - m) := by
  have h2 := (List.take_add (l.drop p) m (n - m)).symm
  rw [List.drop_drop, show m + (n - m) = n by omega] at h2
  exact h2.symm

theorem readToEnd_spec (src : List Nat) (b : Nat) (hb : 1 ≤ b) :
    ∀ (fuel : Nat) (a : Archive) (f : File),
    f.pos ≤ f.size → f.tar_offset + f.size ≤ src.length →
    f.size - f.pos < fuel →
    (readToEnd src fuel a f b).2 =
      ({ f with pos := f.size },
       (src.drop (f.tar_offset + f.pos)).take (f.size - f.pos)) := by
  intro fuel
  induction fuel with
  | zero => intro a f _ _ h3; omega
  | succ k ih =>
    intro a f h1 h2 h3
    unfold readToEnd
    by_cases hpos : f.size = f.pos
    · unfold File.read
      rw [if_pos hpos]
      dsimp only
      have hf : { f with pos := f.size } = f := by
        rcases f with ⟨fh, ft, fp, fs⟩
        dsimp at hpos ⊢
        rw [hpos]
      rw [hf, show f.size - f.pos = 0 by omega]
      simp
    · have hlt : f.pos < f.size := by omega
      unfold File.read
      rw [if_neg (fun hh => hpos hh), seek_bufSeek]
      dsimp only
      unfold Archive.read
      rw [if_neg (by dsimp only; omega)]
      dsimp only
      set bytes := (src.drop (f.tar_offset + f.pos)).take (min (f.size - f.pos) b)
        with hbytes
      have hbl : bytes.length = min (f.size - f.pos) b := by
        rw [hbytes, List.length_take, List.length_drop]
        omega
      have ih' := ih ⟨f.tar_offset + f.pos + bytes.length⟩
        { f with pos := f.pos + bytes.length }
        (by dsimp only; omega) (by dsimp only; omega) (by dsimp only; omega)
      have hF : (readToEnd src k ⟨f.tar_offset + f.pos + bytes.length⟩
          { f with pos := f.pos + bytes.length } b).2.1 =
          { f with pos := f.size } := by
        rw [ih']
      have hS : (readToEnd src k ⟨f.tar_offset + f.pos + bytes.length⟩
          { f with pos := f.pos + bytes.length } b).2.2 =
          (src.drop (f.tar_offset + (f.pos + bytes.length))).take
            (f.size - (f.pos + bytes.length)) := by
        rw [ih']
      rw [hF, hS]
      have key : (src.drop (f.tar_offset + f.pos)).take (f.size - f.pos) =
          bytes ++ (src.drop (f.tar_offset + (f.pos + bytes.length))).take
            (f.size - (f.pos + bytes.length)) := by
        rw [hbl, hbytes]
        rw [show f.tar_offset + (f.pos + min (f.size - f.pos) b) =
          (f.tar_offset + f.pos) + min (f.size - f.pos) b by omega]
        rw [show f.size - (f.pos + min (f.size - f.pos) b) =
          (f.size - f.pos) - min (f.size - f.pos) b by omega]
        exact take_split src (f.tar_offset + f.pos) (min (f.size - f.pos) b)
          (f.size - f.pos) (by omega)
      rw [key]

/-- Claim C9: for an entry view whose data region lies inside the
(deterministic) source, reading it to exhaustion, seeking to
(0, FromStart) — which succeeds and restores the original view — and
reading to exhaustion again yields the identical byte sequence both
times, and the number of bytes obtained equals the entry's size. -/
theorem c9_rewind_reread (src : List Nat) (a : Archive) (f : File) (b : Nat)
    (hb : 1 ≤ b) (hpos : f.pos = 0)
    (hrange : f.tar_offset + f.size ≤ src.length) :
    File.seek (readToEnd src (f.size + 1) a f b).2.1 0 .SeekSet =
      (f, .ok ()) ∧
    (readToEnd src (f.size + 1) (readToEnd src (f.size + 1) a f b).1 f
        b).2.2 =
      (readToEnd src (f.size + 1) a f b).2.2 ∧
    (readToEnd src (f.size + 1) a f b).2.2 =
      (src.drop f.tar_offset).take f.size ∧
    ((readToEnd src (f.size + 1) a f b).2.2).length = f.size := by
  have h1 := readToEnd_spec src b hb (f.size + 1) a f
    (by omega) hrange (by omega)
  have hF1 : (readToEnd src (f.size + 1) a f b).2.1 =
      { f with pos := f.size } := by rw [h1]
  have hO1 : (readToEnd src (f.size + 1) a f b).2.2 =
      (src.drop (f.tar_offset + f.pos)).take (f.size - f.pos) := by rw [h1]
  have h2 := readToEnd_spec src b hb (f.size + 1)
    (readToEnd src (f.size + 1) a f b).1 f (by omega) hrange (by omega)
  have hO2 : (readToEnd src (f.size + 1) (readToEnd src (f.size + 1) a f b).1
      f b).2.2 =
      (src.drop (f.tar_offset + f.pos)).take (f.size - f.pos) := by rw [h2]
  refine ⟨?_, ?_, ?_, ?_⟩
  · rw [hF1]
    unfold File.seek
    dsimp only
    rw [if_neg (by omega), if_neg (by simp)]
    rcases f with ⟨fh, ft, fp, fs⟩
    dsimp only at hpos
    rw [hpos]
    rfl
  · rw [hO2, hO1]
  · rw [hO1, hpos]
    simp
  · rw [hO1, List.length_take, List.length_drop]
    omega

theorem c9_rewind_reread_witness :
    File.seek (readToEnd tinySrc 4 ⟨0⟩ tinyFile 2).2.1 0 .SeekSet =
      (tinyFile, .ok ()) ∧
    (readToEnd tinySrc 4 (readToEnd tinySrc 4 ⟨0⟩ tinyFile 2).1 tinyFile
        2).2.2 =
      (readToEnd tinySrc 4 ⟨0⟩ tinyFile 2).2.2 ∧
    (readToEnd tinySrc 4 ⟨0⟩ tinyFile 2).2.2 = (tinySrc.drop 2).take 3 ∧
    ((readToEnd tinySrc 4 ⟨0⟩ tinyFile 2).2.2).length = 3 :=
  c9_rewind_reread tinySrc ⟨0⟩ tinyFile 2 (by decide) rfl (by decide)

theorem filesNext_trailing_zeros (pre : List Nat) (a : Archive) :
    Files.next (pre ++ List.replicate 1024 0) a ⟨false, pre.length⟩ =
      (⟨pre.length + 1024⟩, ⟨true, pre.length + 1024⟩, none) := by
  have hd1 : (pre ++ List.replicate 1024 0).drop pre.length =
      List.replicate 1024 0 := List.drop_left pre _
  have hd2 : (pre ++ List.replicate 1024 0).drop (pre.length + 512) =
      List.replicate 512 0 := by
    rw [← List.drop_drop, hd1]
    simp [List.drop_replicate]
  have hr1 : Archive.read (pre ++ List.replicate 1024 0) ⟨pre.length⟩ 512 =
      (⟨pre.length + 512⟩, .ok (List.replicate 512 0)) := by
    unfold Archive.read
    rw [if_neg (by simp)]
    dsimp only
    rw [hd1, show (List.replicate 1024 (0 : Nat)).take 512 =
      List.replicate 512 0 by simp [List.take_replicate]]
    rw [List.length_replicate]
  have hr2 : Archive.read (pre ++ List.replicate 1024 0)
      ⟨pre.length + 512⟩ 512 =
      (⟨pre.length + 1024⟩, .ok (List.replicate 512 0)) := by
    unfold Archive.read
    rw [if_neg (by simp)]
    dsimp only
    rw [hd2, show (List.replicate 512 (0 : Nat)).take 512 =
      List.replicate 512 0 by simp [List.take_replicate]]
    rw [List.length_replicate]
  exact filesNext_endzeros _ a _ _ _ rfl hr1 (List.length_replicate _ _)
    (isZeroBlock_replicate _) hr2 (List.length_replicate _ _)
    (isZeroBlock_replicate _)

theorem filesNext_entry (pre rest : List Nat) (a : Archive)
    (e : List Nat × List Nat) (hv : validEntry e) :
    Files.next (pre ++ (e.1 ++ (e.2 ++ rest))) a ⟨false, pre.length⟩ =
      (⟨pre.length + 512⟩,
       ⟨false, pre.length + 512 + e.2.length⟩,
       some (.ok ⟨mkHeader e.1, pre.length + 512, 0, entrySize e⟩)) := by
  obtain ⟨h1, h2, h3, h4, h5⟩ := hv
  have hr : Archive.read (pre ++ (e.1 ++ (e.2 ++ rest))) ⟨pre.length⟩ 512 =
      (⟨pre.length + 512⟩, .ok e.1) := by
    unfold Archive.read
    rw [if_neg (by dsimp only; simp only [List.length_append]; omega)]
    dsimp only
    rw [List.drop_left]
    rw [show (e.1 ++ (e.2 ++ rest)).take 512 = e.1 by
      rw [← h1]; exact List.take_left e.1 _]
    rw [h1]
  rw [filesNext_parse _ a _ e.1 rfl hr h1 h2]
  rw [parseChunk_valid e.1 _ _ (entrySize e) h3 h4]
  dsimp only
  rw [← h5]

theorem runFiles_valid (es : List (List Nat × List Nat)) :
    ∀ (pre : List Nat) (a : Archive),
    (∀ e ∈ es, validEntry e) →
    runFiles (pre ++ ((es.map entryBytes).flatten ++ List.replicate 1024 0))
      (es.length + 1) a ⟨false, pre.length⟩ =
      ((expectedFiles pre.length es).map .ok,
       ⟨true, pre.length + (es.map entryBytes).flatten.length + 1024⟩) := by
  induction es with
  | nil =>
    intro pre a _
    simp only [List.map_nil, List.flatten_nil, List.nil_append,
      List.length_nil, Nat.add_zero]
    unfold runFiles
    rw [filesNext_trailing_zeros pre a]
    rfl
  | cons e es ih =>
    intro pre a hv
    have hve : validEntry e := hv e (List.mem_cons_self _ _)
    have hves : ∀ x ∈ es, validEntry x :=
      fun x hx => hv x (List.mem_cons_of_mem _ hx)
    have hsrc : pre ++
        ((List.map entryBytes (e :: es)).flatten ++ List.replicate 1024 0) =
        pre ++ (e.1 ++ (e.2 ++
          ((List.map entryBytes es).flatten ++ List.replicate 1024 0))) := by
      simp [entryBytes, List.append_assoc]
    rw [hsrc]
    show runFiles _ (es.length + 1 + 1) a ⟨false, pre.length⟩ = _
    unfold runFiles
    rw [filesNext_entry pre _ a e hve]
    dsimp only
    have hsrc2 : pre ++ (e.1 ++ (e.2 ++
        ((List.map entryBytes es).flatten ++ List.replicate 1024 0))) =
        (pre ++ e.1 ++ e.2) ++
          ((List.map entryBytes es).flatten ++ List.replicate 1024 0) := by
      simp [List.append_assoc]
    rw [hsrc2]
    have hoff : pre.length + 512 + e.2.length = (pre ++ e.1 ++ e.2).length := by
      rw [List.length_append, List.length_append, hve.1]
    have ih' := ih (pre ++ e.1 ++ e.2) ⟨pre.length + 512⟩ hves
    rw [← hoff] at ih'
    rw [ih']
    have hexp : expectedFiles pre.length (e :: es) =
        ⟨mkHeader e.1, pre.length + 512, 0, entrySize e⟩ ::
          expectedFiles (pre.length + 512 + e.2.length) es := rfl
    rw [hexp, List.map_cons]
    have hL : pre.length + (List.map entryBytes (e :: es)).flatten.length +
        1024 =
        pre.length + 512 + e.2.length +
          (List.map entryBytes es).flatten.length + 1024 := by
      simp only [List.map_cons, List.flatten_cons, List.length_append,
        entryBytes, hve.1]
      omega
    rw [hL]

/-- Claim C3: when the iterator reads a second consecutive all-zero
512-byte block it transitions permanently to done and yields no entry and
no error; consequently, iterating over an archive made of zero or more
valid entries followed by exactly two all-zero blocks yields precisely
those entries (in order, with their headers, offsets and sizes) and then
ends cleanly with the `done` flag set. -/
theorem c3_end_of_archive :
    (∀ (src : List Nat) (a : Archive) (s : FilesState) (c1 c2 : List Nat),
      s.done = false →
      Archive.read src ⟨s.offset⟩ 512 = (⟨s.offset + 512⟩, .ok c1) →
      c1.length = 512 → isZeroBlock c1 = true →
      Archive.read src ⟨s.offset + 512⟩ 512 = (⟨s.offset + 1024⟩, .ok c2) →
      c2.length = 512 → isZeroBlock c2 = true →
      Files.next src a s =
        (⟨s.offset + 1024⟩, ⟨true, s.offset + 1024⟩, none)) ∧
    (∀ (es : List (List Nat × List Nat)) (a : Archive),
      (∀ e ∈ es, validEntry e) →
      runFiles (archiveBytes es) (es.length + 1) a ⟨false, 0⟩ =
        ((expectedFiles 0 es).map .ok,
         ⟨true, (es.map entryBytes).flatten.length + 1024⟩)) := by
  constructor
  · intro src a s c1 c2 hdone hr1 hl1 hz1 hr2 hl2 hz2
    exact filesNext_endzeros src a s c1 c2 hdone hr1 hl1 hz1 hr2 hl2 hz2
  · intro es a hv
    have h := runFiles_valid es [] a hv
    simpa [archiveBytes] using h

theorem c3_end_of_archive_witness :
    Files.next (List.replicate 1024 0) ⟨3⟩ ⟨false, 0⟩ =
      (⟨1024⟩, ⟨true, 1024⟩, none) ∧
    runFiles (archiveBytes [(goodChunk, [])]) 2 ⟨0⟩ ⟨false, 0⟩ =
      ((expectedFiles 0 [(goodChunk, [])]).map .ok, ⟨true, 1536⟩) :=
  ⟨c3_end_of_archive.1 (List.replicate 1024 0) ⟨3⟩ ⟨false, 0⟩
      (List.replicate 512 0) (List.replicate 512 0) rfl rfl rfl
      (isZeroBlock_replicate 512) rfl rfl (isZeroBlock_replicate 512),
   c3_end_of_archive.2 [(goodChunk, [])] ⟨0⟩ (by decide)⟩
